import Mathlib

/-!
Verification of the crab_cash transaction engine.

This file gives a shallow embedding of the engine (`src/engine/amount.rs`,
`src/engine/account.rs`, `src/engine/ledger.rs`) in Lean 4 and proves
properties of it.  Machine integers (`i64`) are modelled as `Int` together
with an explicit range check `fitsI64`; Rust's `checked_add`, `checked_sub`
and `checked_mul` become range-checked operations.  Strings are modelled as
`List Char`; fallible Rust functions returning `Result` become `Except` or
pairs with an `Option` error component.  A Rust method `&mut self -> Result<(), E>`
becomes a pure function `State -> State × Option E`: the returned state is the
state after the call, whether or not it failed.
-/

namespace CrabCash

/-- Smallest `i64` value, `-2^63`. -/
def i64Min : Int := -(2 ^ 63)

/-- Largest `i64` value, `2^63 - 1`. -/
def i64Max : Int := 2 ^ 63 - 1

/-- Whether an integer is representable as an `i64`. -/
def fitsI64 (n : Int) : Prop := i64Min ≤ n ∧ n ≤ i64Max

instance (n : Int) : Decidable (fitsI64 n) := by
  unfold fitsI64
  infer_instance

/-- Fixed-point money amount, backed by a scaled `i64` (scale `10^-4`).
Mirrors `struct Amount { store: i64 }` in `src/engine/amount.rs`. -/
structure Amount where
  store : Int
deriving DecidableEq

/-- Mirrors `enum AmountError` in `src/engine/amount.rs`. -/
inductive AmountError where
  | Parse (s : List Char)
  | Overflow
  | Underflow
deriving DecidableEq

instance {ε α : Type} [DecidableEq ε] [DecidableEq α] : DecidableEq (Except ε α) := fun x y =>
  match x, y with
  | .ok a, .ok b =>
    if h : a = b then isTrue (by rw [h]) else isFalse (by intro he; cases he; exact h rfl)
  | .error a, .error b =>
    if h : a = b then isTrue (by rw [h]) else isFalse (by intro he; cases he; exact h rfl)
  | .ok _, .error _ => isFalse (by intro he; cases he)
  | .error _, .ok _ => isFalse (by intro he; cases he)

/-- Mirrors `Amount::new`. -/
def Amount.new : Amount := ⟨0⟩

/-- Mirrors `Amount::add` (`checked_add`, failure reported as `Overflow`). -/
def Amount.add (a b : Amount) : Except AmountError Amount :=
  if fitsI64 (a.store + b.store) then .ok ⟨a.store + b.store⟩ else .error .Overflow

/-- Mirrors `Amount::sub` (`checked_sub`, failure reported as `Underflow`). -/
def Amount.sub (a b : Amount) : Except AmountError Amount :=
  if fitsI64 (a.store - b.store) then .ok ⟨a.store - b.store⟩ else .error .Underflow

/-! String helpers used by `Amount::from_str` and `Display`. -/

/-- ASCII / basic-latin whitespace test, modelling Rust's `char::is_whitespace`
for the code points that can realistically surround a decimal number (space,
tab, LF, VT, FF, CR, NEL, NBSP).  Exotic Unicode whitespace plays no role in
any property proved here. -/
def isWs (c : Char) : Bool :=
  c.toNat == 32 || (9 ≤ c.toNat && c.toNat ≤ 13) || c.toNat == 133 || c.toNat == 160

/-- Mirrors `str::trim`. -/
def trimChars (cs : List Char) : List Char :=
  ((cs.dropWhile isWs).reverse.dropWhile isWs).reverse

/-- ASCII digit test, mirrors `char::is_ascii_digit`. -/
def isDigitChar (c : Char) : Bool := 48 ≤ c.toNat && c.toNat ≤ 57

/-- Numeric value of an ASCII digit character. -/
def digitVal (c : Char) : Nat := c.toNat - 48

/-- Value of a digit string, most significant digit first. -/
def digitsVal (cs : List Char) : Nat :=
  cs.foldl (fun n c => n * 10 + digitVal c) 0

/-- Parse a non-empty all-digit string to a `Nat`; mirrors the digit-only part
of Rust's integer `FromStr`. -/
def parseNatDigits? (cs : List Char) : Option Nat :=
  if cs.isEmpty then none
  else if cs.all isDigitChar then some (digitsVal cs) else none

/-- Mirrors `str::parse::<i64>`: an optional sign followed by one or more
ASCII digits, rejecting values outside the `i64` range. -/
def parseI64? (cs : List Char) : Option Int :=
  match cs with
  | [] => none
  | c :: rest =>
    if c = '-' then
      (parseNatDigits? rest).bind fun n =>
        if fitsI64 (-(n : Int)) then some (-(n : Int)) else none
    else if c = '+' then
      (parseNatDigits? rest).bind fun n =>
        if fitsI64 (n : Int) then some (n : Int) else none
    else
      (parseNatDigits? cs).bind fun n =>
        if fitsI64 (n : Int) then some (n : Int) else none

/-- Mirrors `str::split('.')`: the list of `'.'`-separated segments (always
non-empty, like the Rust iterator). -/
def splitDot : List Char → List (List Char)
  | [] => [[]]
  | c :: cs =>
    match splitDot cs with
    | [] => [[]]
    | p :: ps => if c = '.' then [] :: p :: ps else (c :: p) :: ps

/-- Truncate to 4 characters or right-pad with `'0'` to 4 characters; mirrors
the fractional-part normalisation in `Amount::from_str`. -/
def padTo4 (cs : List Char) : List Char :=
  if cs.length > 4 then cs.take 4
  else cs ++ List.replicate (4 - cs.length) '0'

/-- Mirrors `Amount::from_str` in `src/engine/amount.rs`, line by line. -/
def Amount.fromChars (input : List Char) : Except AmountError Amount :=
  let s := trimChars input
  if s.isEmpty then .error (.Parse s)
  else
    match splitDot s with
    | [] => .error (.Parse s)
    | leftPart :: rest =>
      if 2 ≤ rest.length then .error (.Parse s)
      else
        let leftStr := if leftPart.isEmpty then ['0'] else leftPart
        match rest.head? with
        | none =>
          match parseI64? leftStr with
          | some v =>
            if fitsI64 (v * 10000) then .ok ⟨v * 10000⟩ else .error .Overflow
          | none => .error (.Parse s)
        | some decRaw =>
          let decPart := if decRaw.isEmpty then ['0', '0', '0', '0'] else decRaw
          if decPart.all isDigitChar then
            match parseI64? (leftStr ++ padTo4 decPart) with
            | some v => .ok ⟨v⟩
            | none => .error (.Parse s)
          else .error (.Parse s)

/-- Mirrors `Amount::from_str` on a Lean `String`. -/
def Amount.fromStr (s : String) : Except AmountError Amount :=
  Amount.fromChars s.data

/-- Decimal digit character for `n < 10`. -/
def natDigitChar (n : Nat) : Char :=
  match n with
  | 0 => '0' | 1 => '1' | 2 => '2' | 3 => '3' | 4 => '4'
  | 5 => '5' | 6 => '6' | 7 => '7' | 8 => '8' | 9 => '9'
  | _ => '0'

/-- Decimal representation, structurally recursive on a fuel argument so that
it reduces in the kernel; the fuel is always sufficient when `n < fuel`. -/
def natReprAux : Nat → Nat → List Char
  | 0, _ => []
  | fuel + 1, n =>
    if n < 10 then [natDigitChar n]
    else natReprAux fuel (n / 10) ++ [natDigitChar (n % 10)]

/-- Decimal representation of a `Nat`, mirrors Rust's integer `Display`. -/
def natRepr (n : Nat) : List Char := natReprAux (n + 1) n

/-- Mirrors `{:04}` formatting: decimal representation left-padded with `'0'`
to at least 4 characters. -/
def pad4 (n : Nat) : List Char :=
  List.replicate (4 - (natRepr n).length) '0' ++ natRepr n

/-- Mirrors `impl fmt::Display for Amount`.  Rust computes `value.abs()`,
which overflows exactly at `i64::MIN` (a panic under debug assertions); that
single partial point is modelled by returning `none` there. -/
def Amount.format (a : Amount) : Option (List Char) :=
  if a.store = i64Min then none
  else
    let absVal := a.store.natAbs
    let leftPart := absVal / 10000
    let decPart := absVal % 10000
    if a.store < 0 then
      some ('-' :: (natRepr leftPart ++ '.' :: pad4 decPart))
    else
      some (natRepr leftPart ++ '.' :: pad4 decPart)

/-! Association-list model of the `HashMap`s keyed by integer ids.  Insertion
only ever happens under a not-present guard in the source, so a plain cons is
a faithful insert; `get_mut` mutation becomes a keyed map-update. -/

/-- First value bound to key `i`, mirrors `HashMap::get`. -/
def kvFind? {β : Type} (i : Nat) : List (Nat × β) → Option β
  | [] => none
  | p :: ps => if p.1 = i then some p.2 else kvFind? i ps

/-- Update the value bound to key `i` in place, mirrors mutation through
`HashMap::get_mut`. -/
def kvUpdate {β : Type} (i : Nat) (f : β → β) (l : List (Nat × β)) : List (Nat × β) :=
  l.map fun p => if p.1 = i then (p.1, f p.2) else p

/-- Mirrors `enum AccountTxType` in `src/engine/account.rs`. -/
inductive AccountTxType where
  | Deposit
  | Withdrawal
deriving DecidableEq

/-- Mirrors `struct AccountTx` in `src/engine/account.rs`. -/
structure AccountTx where
  amount : Amount
  typ : AccountTxType
  is_disputed : Bool
deriving DecidableEq

/-- Mirrors `struct Account` in `src/engine/account.rs`. -/
structure Account where
  id : Nat
  amount_available : Amount
  amount_held : Amount
  is_locked : Bool
  tx : List (Nat × AccountTx)
deriving DecidableEq

/-- Mirrors `enum AccountOperationError` in `src/engine/account.rs`. -/
inductive AccountOperationError where
  | AccountLocked (txId : Nat)
  | TxAlreadyExist (txId : Nat)
  | TxUnknown (txId : Nat)
  | WithdrawalLimitExceeded (txId : Nat)
  | TxAlreadyDisputed (txId : Nat)
  | TxNotDisputed (txId : Nat)
  | InvalidWithdrawalDispute (txId : Nat)
  | InvalidAmountOperation (e : AmountError)
deriving DecidableEq

/-- Mirrors `Account::new`. -/
def Account.new (clientId : Nat) : Account :=
  { id := clientId
    amount_available := Amount.new
    amount_held := Amount.new
    is_locked := false
    tx := [] }

/-- Mirrors `Account::deposit`.  The returned account is the state after the
call (the Rust method mutates `&mut self`). -/
def Account.deposit (a : Account) (txId : Nat) (txAmount : Amount) :
    Account × Option AccountOperationError :=
  if a.is_locked then (a, some (.AccountLocked txId))
  else if (kvFind? txId a.tx).isNone then
    match a.amount_available.add txAmount with
    | .error e => (a, some (.InvalidAmountOperation e))
    | .ok newAvailable =>
      ({ a with
          amount_available := newAvailable
          tx := (txId, ⟨txAmount, .Deposit, false⟩) :: a.tx }, none)
  else (a, some (.TxAlreadyExist txId))

/-- Mirrors `Account::withdraw`.  The Rust guard `amount_available >= tx_amount`
is the derived structural order on the backing integer. -/
def Account.withdraw (a : Account) (txId : Nat) (txAmount : Amount) :
    Account × Option AccountOperationError :=
  if a.is_locked then (a, some (.AccountLocked txId))
  else if (kvFind? txId a.tx).isNone then
    if txAmount.store ≤ a.amount_available.store then
      match a.amount_available.sub txAmount with
      | .error e => (a, some (.InvalidAmountOperation e))
      | .ok newAvailable =>
        ({ a with
            amount_available := newAvailable
            tx := (txId, ⟨txAmount, .Withdrawal, false⟩) :: a.tx }, none)
    else (a, some (.WithdrawalLimitExceeded txId))
  else (a, some (.TxAlreadyExist txId))

/-- Mirrors `Account::dispute`: both arithmetic steps are checked before
either balance is assigned. -/
def Account.dispute (a : Account) (txId : Nat) :
    Account × Option AccountOperationError :=
  if a.is_locked then (a, some (.AccountLocked txId))
  else
    match kvFind? txId a.tx with
    | none => (a, some (.TxUnknown txId))
    | some t =>
      if t.is_disputed then (a, some (.TxAlreadyDisputed txId))
      else
        match t.typ with
        | .Withdrawal => (a, some (.InvalidWithdrawalDispute txId))
        | .Deposit =>
          match a.amount_available.sub t.amount with
          | .error e => (a, some (.InvalidAmountOperation e))
          | .ok newAvailable =>
            match a.amount_held.add t.amount with
            | .error e => (a, some (.InvalidAmountOperation e))
            | .ok newHeld =>
              ({ a with
                  amount_available := newAvailable
                  amount_held := newHeld
                  tx := kvUpdate txId (fun t0 => { t0 with is_disputed := true }) a.tx },
               none)

/-- Mirrors `Account::resolve`. -/
def Account.resolve (a : Account) (txId : Nat) :
    Account × Option AccountOperationError :=
  if a.is_locked then (a, some (.AccountLocked txId))
  else
    match kvFind? txId a.tx with
    | none => (a, some (.TxUnknown txId))
    | some t =>
      if t.is_disputed then
        match t.typ with
        | .Withdrawal => (a, some (.InvalidWithdrawalDispute txId))
        | .Deposit =>
          match a.amount_held.sub t.amount with
          | .error e => (a, some (.InvalidAmountOperation e))
          | .ok newHeld =>
            match a.amount_available.add t.amount with
            | .error e => (a, some (.InvalidAmountOperation e))
            | .ok newAvailable =>
              ({ a with
                  amount_available := newAvailable
                  amount_held := newHeld
                  tx := kvUpdate txId (fun t0 => { t0 with is_disputed := false }) a.tx },
               none)
      else (a, some (.TxNotDisputed txId))

/-- Mirrors `Account::chargeback`. -/
def Account.chargeback (a : Account) (txId : Nat) :
    Account × Option AccountOperationError :=
  if a.is_locked then (a, some (.AccountLocked txId))
  else
    match kvFind? txId a.tx with
    | none => (a, some (.TxUnknown txId))
    | some t =>
      if t.is_disputed then
        match t.typ with
        | .Withdrawal => (a, some (.InvalidWithdrawalDispute txId))
        | .Deposit =>
          match a.amount_held.sub t.amount with
          | .error e => (a, some (.InvalidAmountOperation e))
          | .ok newHeld =>
            ({ a with
                amount_held := newHeld
                is_locked := true
                tx := kvUpdate txId (fun t0 => { t0 with is_disputed := false }) a.tx },
             none)
      else (a, some (.TxNotDisputed txId))

/-- Mirrors `enum TransactionType` in `src/engine/transaction.rs`. -/
inductive TransactionType where
  | Deposit
  | Withdrawal
  | Dispute
  | Resolve
  | Chargeback
deriving DecidableEq

/-- Mirrors `struct Transaction` in `src/engine/transaction.rs`. -/
structure Transaction where
  id : Nat
  account_id : Nat
  amount : Option String
  typ : TransactionType
deriving DecidableEq

/-- Mirrors `enum LedgerError` in `src/engine/ledger.rs`. -/
inductive LedgerError where
  | Account (e : AccountOperationError)
  | DuplicateTxId (txId : Nat)
  | MissingAmount (txId : Nat)
  | Amount (e : AmountError)
  | NegativeTxAmount (txId : Nat)
deriving DecidableEq

/-- Mirrors `struct Ledger` in `src/engine/ledger.rs`; the `HashSet` of
processed ids is a list, the account `HashMap` an association list. -/
structure Ledger where
  tx_processed : List Nat
  accounts : List (Nat × Account)
deriving DecidableEq

/-- Mirrors `Ledger::new`. -/
def Ledger.new : Ledger := ⟨[], []⟩

/-- Mirrors `self.accounts.entry(id).or_insert_with(|| Account::new(id))`:
the map after the entry call (an absent key is bound to a fresh account
before anything else happens). -/
def orInsertNew (l : List (Nat × Account)) (clientId : Nat) : List (Nat × Account) :=
  match kvFind? clientId l with
  | some _ => l
  | none => (clientId, Account.new clientId) :: l

/-- Mirrors `Ledger::process_transaction`.  The account entry is created (or
found) first, exactly as in the source; every early error return leaves that
entry in the map. -/
def Ledger.processTransaction (l : Ledger) (t : Transaction) :
    Ledger × Option LedgerError :=
  let accounts0 := orInsertNew l.accounts t.account_id
  let acc := match kvFind? t.account_id accounts0 with
             | some a => a
             | none => Account.new t.account_id
  match t.typ with
  | .Deposit =>
    if t.id ∈ l.tx_processed then
      ({ l with accounts := accounts0 }, some (.DuplicateTxId t.id))
    else
      match t.amount with
      | none => ({ l with accounts := accounts0 }, some (.MissingAmount t.id))
      | some amountStr =>
        match Amount.fromStr amountStr with
        | .error e => ({ l with accounts := accounts0 }, some (.Amount e))
        | .ok amt =>
          if amt.store < 0 then
            ({ l with accounts := accounts0 }, some (.NegativeTxAmount t.id))
          else
            match acc.deposit t.id amt with
            | (acc2, some e) =>
              ({ l with accounts := kvUpdate t.account_id (fun _ => acc2) accounts0 },
               some (.Account e))
            | (acc2, none) =>
              ({ tx_processed := t.id :: l.tx_processed
                 accounts := kvUpdate t.account_id (fun _ => acc2) accounts0 }, none)
  | .Withdrawal =>
    if t.id ∈ l.tx_processed then
      ({ l with accounts := accounts0 }, some (.DuplicateTxId t.id))
    else
      match t.amount with
      | none => ({ l with accounts := accounts0 }, some (.MissingAmount t.id))
      | some amountStr =>
        match Amount.fromStr amountStr with
        | .error e => ({ l with accounts := accounts0 }, some (.Amount e))
        | .ok amt =>
          if amt.store < 0 then
            ({ l with accounts := accounts0 }, some (.NegativeTxAmount t.id))
          else
            match acc.withdraw t.id amt with
            | (acc2, some e) =>
              ({ l with accounts := kvUpdate t.account_id (fun _ => acc2) accounts0 },
               some (.Account e))
            | (acc2, none) =>
              ({ tx_processed := t.id :: l.tx_processed
                 accounts := kvUpdate t.account_id (fun _ => acc2) accounts0 }, none)
  | .Dispute =>
    let r := acc.dispute t.id
    ({ l with accounts := kvUpdate t.account_id (fun _ => r.1) accounts0 },
     r.2.map .Account)
  | .Resolve =>
    let r := acc.resolve t.id
    ({ l with accounts := kvUpdate t.account_id (fun _ => r.1) accounts0 },
     r.2.map .Account)
  | .Chargeback =>
    let r := acc.chargeback t.id
    ({ l with accounts := kvUpdate t.account_id (fun _ => r.1) accounts0 },
     r.2.map .Account)

/-- Process a whole stream in arrival order; failures never abort the stream
(the caller of `process_transaction` only logs them). -/
def Ledger.processAll (l : Ledger) (ts : List Transaction) : Ledger :=
  ts.foldl (fun acc t => (acc.processTransaction t).1) l

/-- Mirrors `struct AccountSnapshot` in `src/engine/account_snapshot.rs`.
The money fields hold the `Display` output of the corresponding `Amount`;
the `Option` carries the partiality of `Display` at the single overflowing
backing value (see `Amount.format`). -/
structure AccountSnapshot where
  client : List Char
  available : Option (List Char)
  held : Option (List Char)
  total : Option (List Char)
  locked : Bool
deriving DecidableEq

/-- Mirrors `Ledger::account_snapshots`: accounts whose `available + held`
overflows are silently filtered out. -/
def Ledger.accountSnapshots (l : Ledger) : List AccountSnapshot :=
  l.accounts.filterMap fun p =>
    match p.2.amount_available.add p.2.amount_held with
    | .ok total =>
      some { client := natRepr p.2.id
             available := p.2.amount_available.format
             held := p.2.amount_held.format
             total := total.format
             locked := p.2.is_locked }
    | .error _ => none

/-! Lemmas about the association-list maps. -/

theorem kvFind?_kvUpdate_self {β : Type} (i : Nat) (f : β → β) (l : List (Nat × β)) :
    kvFind? i (kvUpdate i f l) = (kvFind? i l).map f := by
  induction l with
  | nil => rfl
  | cons p ps ih =>
    by_cases h : p.1 = i
    · simp [kvUpdate, kvFind?, h]
    · simp only [kvUpdate, List.map_cons, if_neg h]
      simp only [kvFind?, if_neg h]
      exact ih

theorem kvFind?_kvUpdate_ne {β : Type} {i j : Nat} (h : j ≠ i) (f : β → β)
    (l : List (Nat × β)) : kvFind? j (kvUpdate i f l) = kvFind? j l := by
  induction l with
  | nil => rfl
  | cons p ps ih =>
    by_cases hp : p.1 = i
    · simp only [kvUpdate, List.map_cons, if_pos hp]
      simp only [kvFind?]
      rw [if_neg (by omega), if_neg (by omega)]
      exact ih
    · simp only [kvUpdate, List.map_cons, if_neg hp]
      simp only [kvFind?]
      by_cases hj : p.1 = j
      · simp [hj]
      · rw [if_neg hj, if_neg hj]
        exact ih

/-- C4: every Account operation that returns an error leaves the account's
`amount_available`, `amount_held`, `is_locked` and transaction map exactly as
they were before the call (the returned state equals the input state), for
every account, transaction id and amount — including when one of the two
internal Amount arithmetic steps of dispute or resolve fails. -/
theorem account_op_error_leaves_state_unchanged (a : Account) (i : Nat) (amt : Amount) :
    ((a.deposit i amt).2.isSome → (a.deposit i amt).1 = a) ∧
    ((a.withdraw i amt).2.isSome → (a.withdraw i amt).1 = a) ∧
    ((a.dispute i).2.isSome → (a.dispute i).1 = a) ∧
    ((a.resolve i).2.isSome → (a.resolve i).1 = a) ∧
    ((a.chargeback i).2.isSome → (a.chargeback i).1 = a) := by
  refine ⟨?_, ?_, ?_, ?_, ?_⟩ <;> intro h
  · by_cases hlock : a.is_locked
    · simp [Account.deposit, hlock]
    · by_cases hfind : (kvFind? i a.tx).isNone
      · rcases hadd : a.amount_available.add amt with e | v
        · simp [Account.deposit, hlock, hfind, hadd]
        · simp [Account.deposit, hlock, hfind, hadd] at h
      · simp [Account.deposit, hlock, hfind]
  · by_cases hlock : a.is_locked
    · simp [Account.withdraw, hlock]
    · by_cases hfind : (kvFind? i a.tx).isNone
      · by_cases hle : amt.store ≤ a.amount_available.store
        · rcases hsub : a.amount_available.sub amt with e | v
          · simp [Account.withdraw, hlock, hfind, hle, hsub]
          · simp [Account.withdraw, hlock, hfind, hle, hsub] at h
        · simp [Account.withdraw, hlock, hfind, hle]
      · simp [Account.withdraw, hlock, hfind]
  · by_cases hlock : a.is_locked
    · simp [Account.dispute, hlock]
    · rcases hfind : kvFind? i a.tx with _ | t
      · simp [Account.dispute, hlock, hfind]
      · by_cases hdisp : t.is_disputed
        · simp [Account.dispute, hlock, hfind, hdisp]
        · rcases htyp : t.typ with _ | _
          · rcases hsub : a.amount_available.sub t.amount with e | v
            · simp [Account.dispute, hlock, hfind, hdisp, htyp, hsub]
            · rcases hadd : a.amount_held.add t.amount with e | w
              · simp [Account.dispute, hlock, hfind, hdisp, htyp, hsub, hadd]
              · simp [Account.dispute, hlock, hfind, hdisp, htyp, hsub, hadd] at h
          · simp [Account.dispute, hlock, hfind, hdisp, htyp]
  · by_cases hlock : a.is_locked
    · simp [Account.resolve, hlock]
    · rcases hfind : kvFind? i a.tx with _ | t
      · simp [Account.resolve, hlock, hfind]
      · by_cases hdisp : t.is_disputed
        · rcases htyp : t.typ with _ | _
          · rcases hsub : a.amount_held.sub t.amount with e | v
            · simp [Account.resolve, hlock, hfind, hdisp, htyp, hsub]
            · rcases hadd : a.amount_available.add t.amount with e | w
              · simp [Account.resolve, hlock, hfind, hdisp, htyp, hsub, hadd]
              · simp [Account.resolve, hlock, hfind, hdisp, htyp, hsub, hadd] at h
          · simp [Account.resolve, hlock, hfind, hdisp, htyp]
        · simp [Account.resolve, hlock, hfind, hdisp]
  · by_cases hlock : a.is_locked
    · simp [Account.chargeback, hlock]
    · rcases hfind : kvFind? i a.tx with _ | t
      · simp [Account.chargeback, hlock, hfind]
      · by_cases hdisp : t.is_disputed
        · rcases htyp : t.typ with _ | _
          · rcases hsub : a.amount_held.sub t.amount with e | v
            · simp [Account.chargeback, hlock, hfind, hdisp, htyp, hsub]
            · simp [Account.chargeback, hlock, hfind, hdisp, htyp, hsub] at h
          · simp [Account.chargeback, hlock, hfind, hdisp, htyp]
        · simp [Account.chargeback, hlock, hfind, hdisp]

/-- Witness for C4 at a concrete input: withdrawing from an empty account
fails and leaves the account unchanged. -/
theorem account_op_error_leaves_state_unchanged_witness :
    ((Account.new 7).withdraw 1 ⟨500000⟩).1 = Account.new 7 :=
  (account_op_error_leaves_state_unchanged (Account.new 7) 1 ⟨500000⟩).2.1 (by decide)

/-- C5: on a locked account every operation fails with `AccountLocked` —
before any other validation, for arbitrary transaction id and amount — and
returns the account with every field unchanged; in particular `is_locked`
stays `true`, so the flag never reverts. -/
theorem locked_account_rejects_everything (a : Account) (h : a.is_locked = true)
    (i : Nat) (amt : Amount) :
    a.deposit i amt = (a, some (.AccountLocked i)) ∧
    a.withdraw i amt = (a, some (.AccountLocked i)) ∧
    a.dispute i = (a, some (.AccountLocked i)) ∧
    a.resolve i = (a, some (.AccountLocked i)) ∧
    a.chargeback i = (a, some (.AccountLocked i)) := by
  unfold Account.deposit Account.withdraw Account.dispute Account.resolve Account.chargeback
  simp [h]

/-- Witness for C5 at a concrete locked account. -/
theorem locked_account_rejects_everything_witness :
    (⟨3, ⟨0⟩, ⟨0⟩, true, []⟩ : Account).deposit 9 ⟨100000⟩ =
      (⟨3, ⟨0⟩, ⟨0⟩, true, []⟩, some (.AccountLocked 9)) :=
  (locked_account_rejects_everything ⟨3, ⟨0⟩, ⟨0⟩, true, []⟩ rfl 9 ⟨100000⟩).1

/-- C6: a successful chargeback of a disputed deposit record subtracts the
record's amount from `amount_held`, leaves `amount_available` unchanged,
sets `is_locked`, and clears the record's disputed flag. -/
theorem chargeback_success_effect (a : Account) (i : Nat) (r : AccountTx) (h2 : Amount)
    (hlock : a.is_locked = false)
    (hfind : kvFind? i a.tx = some r)
    (hdisp : r.is_disputed = true)
    (htyp : r.typ = .Deposit)
    (hsub : a.amount_held.sub r.amount = .ok h2) :
    a.chargeback i =
      ({ a with
          amount_held := h2
          is_locked := true
          tx := kvUpdate i (fun t0 => { t0 with is_disputed := false }) a.tx }, none) ∧
    h2.store = a.amount_held.store - r.amount.store ∧
    (a.chargeback i).1.amount_available = a.amount_available ∧
    kvFind? i (a.chargeback i).1.tx = some { r with is_disputed := false } := by
  have hcb : a.chargeback i =
      ({ a with
          amount_held := h2
          is_locked := true
          tx := kvUpdate i (fun t0 => { t0 with is_disputed := false }) a.tx }, none) := by
    simp [Account.chargeback, hlock, hfind, hdisp, htyp, hsub]
  refine ⟨hcb, ?_, ?_, ?_⟩
  · unfold Amount.sub at hsub
    split at hsub
    · cases hsub; rfl
    · cases hsub
  · rw [hcb]
  · rw [hcb]
    simp only
    rw [kvFind?_kvUpdate_self, hfind]
    rfl

/-- Witness for C6 at a concrete account with one disputed deposit. -/
theorem chargeback_success_effect_witness :
    (⟨1, ⟨0⟩, ⟨1000000⟩, false, [(0, ⟨⟨1000000⟩, .Deposit, true⟩)]⟩ : Account).chargeback 0 =
      (⟨1, ⟨0⟩, ⟨0⟩, true, [(0, ⟨⟨1000000⟩, .Deposit, false⟩)]⟩, none) := by
  have h := (chargeback_success_effect
    ⟨1, ⟨0⟩, ⟨1000000⟩, false, [(0, ⟨⟨1000000⟩, .Deposit, true⟩)]⟩ 0
    ⟨⟨1000000⟩, .Deposit, true⟩ ⟨0⟩ rfl rfl rfl rfl (by decide)).1
  rw [h]
  decide

/-! Reachability of account states through the public operations, and the
no-disputed-withdrawal invariant (claim C9). -/

/-- Account states reachable from a fresh account through the public
operations, each applied with arbitrary arguments (the post-state of a call
is its first component, whether the call succeeded or failed). -/
inductive Account.Reachable : Account → Prop where
  | new (clientId : Nat) : Account.Reachable (Account.new clientId)
  | deposit {a : Account} (i : Nat) (amt : Amount) :
      Account.Reachable a → Account.Reachable (a.deposit i amt).1
  | withdraw {a : Account} (i : Nat) (amt : Amount) :
      Account.Reachable a → Account.Reachable (a.withdraw i amt).1
  | dispute {a : Account} (i : Nat) :
      Account.Reachable a → Account.Reachable (a.dispute i).1
  | resolve {a : Account} (i : Nat) :
      Account.Reachable a → Account.Reachable (a.resolve i).1
  | chargeback {a : Account} (i : Nat) :
      Account.Reachable a → Account.Reachable (a.chargeback i).1

/-- No withdrawal record in the map is marked disputed. -/
def noDW (l : List (Nat × AccountTx)) : Prop :=
  ∀ i r, kvFind? i l = some r → r.typ = .Withdrawal → r.is_disputed = false

theorem noDW_cons {l : List (Nat × AccountTx)} {i : Nat} {t : AccountTx}
    (hl : noDW l) (ht : t.is_disputed = false) : noDW ((i, t) :: l) := by
  intro j r hfind htyp
  simp only [kvFind?] at hfind
  split at hfind
  · cases hfind; exact ht
  · exact hl j r hfind htyp

theorem noDW_update_false {l : List (Nat × AccountTx)} {i : Nat} (hl : noDW l) :
    noDW (kvUpdate i (fun t0 => { t0 with is_disputed := false }) l) := by
  intro j r hfind htyp
  by_cases hj : j = i
  · subst hj
    rw [kvFind?_kvUpdate_self] at hfind
    rcases hfid : kvFind? j l with _ | t0
    · rw [hfid] at hfind; cases hfind
    · rw [hfid] at hfind
      cases hfind
      rfl
  · rw [kvFind?_kvUpdate_ne hj] at hfind
    exact hl j r hfind htyp

theorem noDW_update_deposit {l : List (Nat × AccountTx)} {i : Nat} {t : AccountTx}
    (hl : noDW l) (hfind : kvFind? i l = some t) (htyp : t.typ = .Deposit)
    (f : AccountTx → AccountTx) (hf : ∀ t0, (f t0).typ = t0.typ) :
    noDW (kvUpdate i f l) := by
  intro j r hr hrt
  by_cases hj : j = i
  · subst hj
    rw [kvFind?_kvUpdate_self, hfind] at hr
    cases hr
    rw [hf t, htyp] at hrt
    cases hrt
  · rw [kvFind?_kvUpdate_ne hj] at hr
    exact hl j r hr hrt

theorem deposit_preserves_noDW (a : Account) (i : Nat) (amt : Amount)
    (h : noDW a.tx) : noDW ((a.deposit i amt).1).tx := by
  by_cases hlock : a.is_locked
  · simpa [Account.deposit, hlock] using h
  · by_cases hfind : (kvFind? i a.tx).isNone
    · rcases hadd : a.amount_available.add amt with e | v
      · simpa [Account.deposit, hlock, hfind, hadd] using h
      · simp only [Account.deposit, hlock, hfind, hadd]
        simp only [Bool.false_eq_true, if_false, if_true]
        exact noDW_cons h rfl
    · simpa [Account.deposit, hlock, hfind] using h

theorem withdraw_preserves_noDW (a : Account) (i : Nat) (amt : Amount)
    (h : noDW a.tx) : noDW ((a.withdraw i amt).1).tx := by
  by_cases hlock : a.is_locked
  · simpa [Account.withdraw, hlock] using h
  · by_cases hfind : (kvFind? i a.tx).isNone
    · by_cases hle : amt.store ≤ a.amount_available.store
      · rcases hsub : a.amount_available.sub amt with e | v
        · simpa [Account.withdraw, hlock, hfind, hle, hsub] using h
        · simp only [Account.withdraw, hlock, hfind, hle, hsub]
          simp only [Bool.false_eq_true, if_false, if_true]
          exact noDW_cons h rfl
      · simpa [Account.withdraw, hlock, hfind, hle] using h
    · simpa [Account.withdraw, hlock, hfind] using h

theorem dispute_preserves_noDW (a : Account) (i : Nat)
    (h : noDW a.tx) : noDW ((a.dispute i).1).tx := by
  by_cases hlock : a.is_locked
  · simpa [Account.dispute, hlock] using h
  · rcases hfind : kvFind? i a.tx with _ | t
    · simpa [Account.dispute, hlock, hfind] using h
    · by_cases hdisp : t.is_disputed
      · simpa [Account.dispute, hlock, hfind, hdisp] using h
      · rcases htyp : t.typ with _ | _
        · rcases hsub : a.amount_available.sub t.amount with e | v
          · simpa [Account.dispute, hlock, hfind, hdisp, htyp, hsub] using h
          · rcases hadd : a.amount_held.add t.amount with e | w
            · simpa [Account.dispute, hlock, hfind, hdisp, htyp, hsub, hadd] using h
            · simp only [Account.dispute, hlock, hfind, hdisp, htyp, hsub, hadd]
              simp only [Bool.false_eq_true, if_false]
              exact noDW_update_deposit h hfind htyp _ (fun t0 => rfl)
        · simpa [Account.dispute, hlock, hfind, hdisp, htyp] using h

theorem resolve_preserves_noDW (a : Account) (i : Nat)
    (h : noDW a.tx) : noDW ((a.resolve i).1).tx := by
  by_cases hlock : a.is_locked
  · simpa [Account.resolve, hlock] using h
  · rcases hfind : kvFind? i a.tx with _ | t
    · simpa [Account.resolve, hlock, hfind] using h
    · by_cases hdisp : t.is_disputed
      · rcases htyp : t.typ with _ | _
        · rcases hsub : a.amount_held.sub t.amount with e | v
          · simpa [Account.resolve, hlock, hfind, hdisp, htyp, hsub] using h
          · rcases hadd : a.amount_available.add t.amount with e | w
            · simpa [Account.resolve, hlock, hfind, hdisp, htyp, hsub, hadd] using h
            · simp only [Account.resolve, hlock, hfind, hdisp, htyp, hsub, hadd]
              simp only [Bool.false_eq_true, if_false]
              exact noDW_update_false h
        · simpa [Account.resolve, hlock, hfind, hdisp, htyp] using h
      · simpa [Account.resolve, hlock, hfind, hdisp] using h

theorem chargeback_preserves_noDW (a : Account) (i : Nat)
    (h : noDW a.tx) : noDW ((a.chargeback i).1).tx := by
  by_cases hlock : a.is_locked
  · simpa [Account.chargeback, hlock] using h
  · rcases hfind : kvFind? i a.tx with _ | t
    · simpa [Account.chargeback, hlock, hfind] using h
    · by_cases hdisp : t.is_disputed
      · rcases htyp : t.typ with _ | _
        · rcases hsub : a.amount_held.sub t.amount with e | v
          · simpa [Account.chargeback, hlock, hfind, hdisp, htyp, hsub] using h
          · simp only [Account.chargeback, hlock, hfind, hdisp, htyp, hsub]
            simp only [Bool.false_eq_true, if_false]
            exact noDW_update_false h
        · simpa [Account.chargeback, hlock, hfind, hdisp, htyp] using h
      · simpa [Account.chargeback, hlock, hfind, hdisp] using h

/-- C9: in every account state reachable through the public operations, no
withdrawal record has its disputed flag set; moreover a dispute naming a
withdrawal record on an unlocked reachable account fails with
`InvalidWithdrawalDispute` and the record is unchanged afterwards. -/
theorem reachable_no_disputed_withdrawal (a : Account) (h : Account.Reachable a) :
    (∀ i r, kvFind? i a.tx = some r → r.typ = .Withdrawal → r.is_disputed = false) ∧
    (∀ i r, kvFind? i a.tx = some r → r.typ = .Withdrawal → a.is_locked = false →
      (a.dispute i).2 = some (.InvalidWithdrawalDispute i) ∧
      kvFind? i ((a.dispute i).1).tx = some r) := by
  have hinv : noDW a.tx := by
    induction h with
    | new clientId => intro i r hfind; cases hfind
    | deposit i amt _ ih => exact deposit_preserves_noDW _ i amt ih
    | withdraw i amt _ ih => exact withdraw_preserves_noDW _ i amt ih
    | dispute i _ ih => exact dispute_preserves_noDW _ i ih
    | resolve i _ ih => exact resolve_preserves_noDW _ i ih
    | chargeback i _ ih => exact chargeback_preserves_noDW _ i ih
  refine ⟨hinv, ?_⟩
  intro i r hfind htyp hlock
  have hdisp : r.is_disputed = false := hinv i r hfind htyp
  have : a.dispute i = (a, some (.InvalidWithdrawalDispute i)) := by
    simp [Account.dispute, hlock, hfind, hdisp, htyp]
  rw [this]
  exact ⟨rfl, hfind⟩

/-- Witness for C9: a concrete reachable account (deposit then withdrawal)
whose withdrawal record cannot be disputed. -/
theorem reachable_no_disputed_withdrawal_witness :
    (((((Account.new 0).deposit 0 ⟨1000000⟩).1.withdraw 1 ⟨500000⟩).1.dispute 1).2 =
      some (.InvalidWithdrawalDispute 1)) :=
  ((reachable_no_disputed_withdrawal _
      (Account.Reachable.withdraw 1 ⟨500000⟩
        (Account.Reachable.deposit 0 ⟨1000000⟩ (Account.Reachable.new 0)))).2
    1 ⟨⟨500000⟩, .Withdrawal, false⟩ (by decide) rfl (by decide)).1

/-! Non-negativity of `amount_available` at the ledger level (claim C1). -/

/-- Every account in the map has non-negative available funds. -/
def accsNonneg (al : List (Nat × Account)) : Prop :=
  ∀ cid acc, kvFind? cid al = some acc → 0 ≤ acc.amount_available.store

theorem orInsertNew_nonneg {al : List (Nat × Account)} (cid : Nat)
    (h : accsNonneg al) : accsNonneg (orInsertNew al cid) := by
  unfold orInsertNew
  rcases hfind : kvFind? cid al with _ | a
  · intro j acc hj
    simp only [kvFind?] at hj
    split at hj
    · cases hj; simp [Account.new, Amount.new]
    · exact h j acc hj
  · exact h

theorem kvUpdate_const_nonneg {al : List (Nat × Account)} (cid : Nat) (b : Account)
    (h : accsNonneg al) (hb : 0 ≤ b.amount_available.store) :
    accsNonneg (kvUpdate cid (fun _ => b) al) := by
  intro j acc hj
  by_cases hcid : j = cid
  · subst hcid
    rw [kvFind?_kvUpdate_self] at hj
    rcases hf : kvFind? j al with _ | a
    · rw [hf] at hj; cases hj
    · rw [hf] at hj; cases hj; exact hb
  · rw [kvFind?_kvUpdate_ne hcid] at hj
    exact h j acc hj

theorem deposit_avail_nonneg (a : Account) (i : Nat) (amt : Amount)
    (ha : 0 ≤ a.amount_available.store) (hamt : 0 ≤ amt.store) :
    0 ≤ ((a.deposit i amt).1).amount_available.store := by
  by_cases hlock : a.is_locked
  · simpa [Account.deposit, hlock] using ha
  · by_cases hfind : (kvFind? i a.tx).isNone
    · rcases hadd : a.amount_available.add amt with e | v
      · simpa [Account.deposit, hlock, hfind, hadd] using ha
      · have hv : v.store = a.amount_available.store + amt.store := by
          unfold Amount.add at hadd
          split at hadd
          · cases hadd; rfl
          · cases hadd
        simp only [Account.deposit, hlock, hfind, hadd]
        simp only [Bool.false_eq_true, if_false, if_true]
        omega
    · simpa [Account.deposit, hlock, hfind] using ha

theorem withdraw_avail_nonneg (a : Account) (i : Nat) (amt : Amount)
    (ha : 0 ≤ a.amount_available.store) :
    0 ≤ ((a.withdraw i amt).1).amount_available.store := by
  by_cases hlock : a.is_locked
  · simpa [Account.withdraw, hlock] using ha
  · by_cases hfind : (kvFind? i a.tx).isNone
    · by_cases hle : amt.store ≤ a.amount_available.store
      · rcases hsub : a.amount_available.sub amt with e | v
        · simpa [Account.withdraw, hlock, hfind, hle, hsub] using ha
        · have hv : v.store = a.amount_available.store - amt.store := by
            unfold Amount.sub at hsub
            split at hsub
            · cases hsub; rfl
            · cases hsub
          simp only [Account.withdraw, hlock, hfind, hle, hsub]
          simp only [Bool.false_eq_true, if_false, if_true]
          omega
      · simpa [Account.withdraw, hlock, hfind, hle] using ha
    · simpa [Account.withdraw, hlock, hfind] using ha

theorem process_dep_wd_preserves_nonneg (l : Ledger) (t : Transaction)
    (ht : t.typ = .Deposit ∨ t.typ = .Withdrawal)
    (h : accsNonneg l.accounts) : accsNonneg ((l.processTransaction t).1).accounts := by
  have h0 : accsNonneg (orInsertNew l.accounts t.account_id) :=
    orInsertNew_nonneg t.account_id h
  have hacc : 0 ≤ (match kvFind? t.account_id (orInsertNew l.accounts t.account_id) with
      | some a => a
      | none => Account.new t.account_id).amount_available.store := by
    rcases hf : kvFind? t.account_id (orInsertNew l.accounts t.account_id) with _ | a
    · simp [Account.new, Amount.new]
    · exact h0 t.account_id a hf
  rcases ht with htyp | htyp <;>
  · simp only [Ledger.processTransaction, htyp]
    by_cases hdup : t.id ∈ l.tx_processed
    · simpa [hdup] using h0
    · rcases t.amount with _ | amountStr
      · simpa [hdup] using h0
      · rcases hparse : Amount.fromStr amountStr with e | amt
        · simpa [hdup, hparse] using h0
        · by_cases hneg : amt.store < 0
          · simpa [hdup, hparse, hneg] using h0
          · simp only [hdup, hparse, hneg]
            simp only [if_false, if_true, ite_false, ite_true]
            first
            | · rcases hop : (match kvFind? t.account_id (orInsertNew l.accounts t.account_id) with
                  | some a => a
                  | none => Account.new t.account_id).deposit t.id amt with ⟨acc2, err⟩
                have hacc2 : 0 ≤ acc2.amount_available.store := by
                  have := deposit_avail_nonneg (match kvFind? t.account_id (orInsertNew l.accounts t.account_id) with
                    | some a => a
                    | none => Account.new t.account_id) t.id amt hacc (by omega)
                  rw [hop] at this
                  exact this
                rcases err with _ | e <;>
                  simpa [hop] using kvUpdate_const_nonneg t.account_id acc2 h0 hacc2
            | · rcases hop : (match kvFind? t.account_id (orInsertNew l.accounts t.account_id) with
                  | some a => a
                  | none => Account.new t.account_id).withdraw t.id amt with ⟨acc2, err⟩
                have hacc2 : 0 ≤ acc2.amount_available.store := by
                  have := withdraw_avail_nonneg (match kvFind? t.account_id (orInsertNew l.accounts t.account_id) with
                    | some a => a
                    | none => Account.new t.account_id) t.id amt hacc
                  rw [hop] at this
                  exact this
                rcases err with _ | e <;>
                  simpa [hop] using kvUpdate_const_nonneg t.account_id acc2 h0 hacc2

theorem processAll_dep_wd_nonneg (ts : List Transaction)
    (h : ∀ t ∈ ts, t.typ = .Deposit ∨ t.typ = .Withdrawal) :
    ∀ l : Ledger, accsNonneg l.accounts → accsNonneg ((l.processAll ts).accounts) := by
  induction ts with
  | nil => intro l hl; exact hl
  | cons t ts ih =>
    intro l hl
    have ht := h t (by simp)
    have hstep := process_dep_wd_preserves_nonneg l t ht hl
    have hrest : ∀ t0 ∈ ts, t0.typ = .Deposit ∨ t0.typ = .Withdrawal :=
      fun t0 ht0 => h t0 (by simp [ht0])
    exact ih hrest (l.processTransaction t).1 hstep

/-- C1 (amended): after any sequence of Deposit and Withdrawal transactions
processed through a fresh ledger, no account's `amount_available` is
negative.  (The original claim over all five transaction kinds fails: see the
dispute counterexample.) -/
theorem no_negative_available_without_disputes (ts : List Transaction)
    (h : ∀ t ∈ ts, t.typ = .Deposit ∨ t.typ = .Withdrawal) :
    ∀ cid acc, kvFind? cid (Ledger.new.processAll ts).accounts = some acc →
      0 ≤ acc.amount_available.store :=
  processAll_dep_wd_nonneg ts h Ledger.new (fun _ _ hfind => by cases hfind)

/-- Witness for amended C1 on a concrete deposit/withdrawal stream. -/
theorem no_negative_available_without_disputes_witness :
    0 ≤ (⟨1, ⟨500000⟩, ⟨0⟩, false,
        [(1, ⟨⟨500000⟩, .Withdrawal, false⟩), (0, ⟨⟨1000000⟩, .Deposit, false⟩)]⟩ :
        Account).amount_available.store :=
  no_negative_available_without_disputes
    [⟨0, 1, some "100.0", .Deposit⟩, ⟨1, 1, some "50.0", .Withdrawal⟩]
    (by decide) 1
    ⟨1, ⟨500000⟩, ⟨0⟩, false,
      [(1, ⟨⟨500000⟩, .Withdrawal, false⟩), (0, ⟨⟨1000000⟩, .Deposit, false⟩)]⟩
    (by decide)

/-- Counterexample to C1 as stated: deposit 100, withdraw all 100, then
dispute the deposit; the dispute succeeds and leaves
`amount_available = -100.0000`. -/
theorem dispute_after_withdrawal_negative_available_cex :
    (((Ledger.new.processAll
        [⟨0, 1, some "100.0", .Deposit⟩,
         ⟨1, 1, some "100.0", .Withdrawal⟩]).processTransaction
        ⟨0, 1, none, .Dispute⟩).2 = none) ∧
    ((kvFind? 1 (Ledger.new.processAll
        [⟨0, 1, some "100.0", .Deposit⟩,
         ⟨1, 1, some "100.0", .Withdrawal⟩,
         ⟨0, 1, none, .Dispute⟩]).accounts).map
      (fun a => a.amount_available.store) = some (-1000000)) := by
  decide

/-! Duplicate-transaction-id handling at the ledger level (claim C2). -/

theorem kvFind?_orInsertNew_of_some {al : List (Nat × Account)} {cid j : Nat}
    {acc : Account} (h : kvFind? j al = some acc) :
    kvFind? j (orInsertNew al cid) = some acc := by
  unfold orInsertNew
  rcases hfind : kvFind? cid al with _ | a
  · simp only [kvFind?]
    split
    · next heq =>
        subst heq
        rw [h] at hfind
        cases hfind
    · exact h
  · exact h

/-- C2 (amended): a Deposit or Withdrawal whose transaction id is already in
the global processed set is rejected with `DuplicateTxId` before touching any
balance or the processed set — but the account entry for the record's client
is lazily created before the duplicate check, so a client id that had no
account gains a fresh empty account as a side effect of the rejection;
accounts that already existed are untouched. -/
theorem duplicate_id_rejected_before_balances (l : Ledger) (t : Transaction)
    (hdup : t.id ∈ l.tx_processed)
    (htyp : t.typ = .Deposit ∨ t.typ = .Withdrawal) :
    (l.processTransaction t).2 = some (.DuplicateTxId t.id) ∧
    (l.processTransaction t).1.tx_processed = l.tx_processed ∧
    (l.processTransaction t).1.accounts = orInsertNew l.accounts t.account_id ∧
    (∀ cid acc, kvFind? cid l.accounts = some acc →
      kvFind? cid (l.processTransaction t).1.accounts = some acc) := by
  have hmain : (l.processTransaction t).2 = some (.DuplicateTxId t.id) ∧
      (l.processTransaction t).1.tx_processed = l.tx_processed ∧
      (l.processTransaction t).1.accounts = orInsertNew l.accounts t.account_id := by
    rcases htyp with h | h <;> simp [Ledger.processTransaction, h, hdup]
  refine ⟨hmain.1, hmain.2.1, hmain.2.2, ?_⟩
  intro cid acc hfind
  rw [hmain.2.2]
  exact kvFind?_orInsertNew_of_some hfind

/-- Witness for amended C2 at a concrete duplicate deposit. -/
theorem duplicate_id_rejected_before_balances_witness :
    (((Ledger.new.processTransaction ⟨1, 1, some "10.0", .Deposit⟩).1.processTransaction
        ⟨1, 2, some "5.0", .Deposit⟩).2 = some (.DuplicateTxId 1)) :=
  (duplicate_id_rejected_before_balances _ ⟨1, 2, some "5.0", .Deposit⟩
    (by decide) (Or.inl rfl)).1

/-- Counterexample to C2 as stated: after the rejected duplicate deposit for
client 2 (which had no account), client 2 *does* have a freshly created empty
account. -/
theorem duplicate_rejection_creates_account_cex :
    (kvFind? 2 ((Ledger.new.processTransaction
        ⟨1, 1, some "10.0", .Deposit⟩).1).accounts = none) ∧
    (((Ledger.new.processTransaction ⟨1, 1, some "10.0", .Deposit⟩).1.processTransaction
        ⟨1, 2, some "5.0", .Deposit⟩).2 = some (.DuplicateTxId 1)) ∧
    (kvFind? 2 (((Ledger.new.processTransaction
        ⟨1, 1, some "10.0", .Deposit⟩).1.processTransaction
        ⟨1, 2, some "5.0", .Deposit⟩).1).accounts = some (Account.new 2)) := by
  decide

/-! Snapshot report characterization (claim C8). -/

/-- The snapshot produced for one account entry, given its computed total. -/
def snapshotOf (p : Nat × Account) (total : Amount) : AccountSnapshot :=
  { client := natRepr p.2.id
    available := p.2.amount_available.format
    held := p.2.amount_held.format
    total := total.format
    locked := p.2.is_locked }

/-- Whether `available + held` does not overflow for an account entry. -/
def totalOk (p : Nat × Account) : Bool :=
  match p.2.amount_available.add p.2.amount_held with
  | .ok _ => true
  | .error _ => false

theorem length_filterMap_eq_length_filter {α β : Type} (f : α → Option β) (q : α → Bool)
    (h : ∀ x, (f x).isSome = q x) (l : List α) :
    (l.filterMap f).length = (l.filter q).length := by
  induction l with
  | nil => rfl
  | cons x xs ih =>
    rcases hfx : f x with _ | b
    · have hq : q x = false := by rw [← h x, hfx]; rfl
      simp [List.filterMap_cons, List.filter_cons, hfx, hq, ih]
    · have hq : q x = true := by rw [← h x, hfx]; rfl
      simp [List.filterMap_cons, List.filter_cons, hfx, hq, ih]

/-- C8: the snapshot sequence contains the snapshot of every account whose
`available + held` does not overflow, with the `total` field rendered from
that sum; every snapshot comes from such an account; and the report has
exactly one entry per non-overflowing account (overflowing ones are excluded,
the rest are still produced — the report is never aborted). -/
theorem account_snapshots_characterization (l : Ledger) :
    (∀ p ∈ l.accounts, ∀ total, p.2.amount_available.add p.2.amount_held = .ok total →
      snapshotOf p total ∈ l.accountSnapshots) ∧
    (∀ s ∈ l.accountSnapshots, ∃ p, p ∈ l.accounts ∧ ∃ total,
      p.2.amount_available.add p.2.amount_held = .ok total ∧ s = snapshotOf p total) ∧
    l.accountSnapshots.length = (l.accounts.filter totalOk).length := by
  refine ⟨?_, ?_, ?_⟩
  · intro p hp total htotal
    unfold Ledger.accountSnapshots
    rw [List.mem_filterMap]
    exact ⟨p, hp, by rw [htotal]; rfl⟩
  · intro s hs
    unfold Ledger.accountSnapshots at hs
    rw [List.mem_filterMap] at hs
    rcases hs with ⟨p, hp, hfp⟩
    rcases htotal : p.2.amount_available.add p.2.amount_held with e | total
    · rw [htotal] at hfp; cases hfp
    · rw [htotal] at hfp
      cases hfp
      exact ⟨p, hp, total, htotal, rfl⟩
  · unfold Ledger.accountSnapshots
    apply length_filterMap_eq_length_filter
    intro p
    unfold totalOk
    rcases htotal : p.2.amount_available.add p.2.amount_held with e | total <;> simp [htotal]

/-- Witness for C8 on a concrete two-account ledger where one total
overflows: the good account's snapshot is in the report. -/
theorem account_snapshots_characterization_witness :
    snapshotOf (1, ⟨1, ⟨1000000⟩, ⟨500⟩, false, []⟩) ⟨1000500⟩ ∈
      (⟨[], [(1, ⟨1, ⟨1000000⟩, ⟨500⟩, false, []⟩),
             (2, ⟨2, ⟨i64Max⟩, ⟨10000⟩, false, []⟩)]⟩ : Ledger).accountSnapshots :=
  (account_snapshots_characterization
      ⟨[], [(1, ⟨1, ⟨1000000⟩, ⟨500⟩, false, []⟩),
            (2, ⟨2, ⟨i64Max⟩, ⟨10000⟩, false, []⟩)]⟩).1
    (1, ⟨1, ⟨1000000⟩, ⟨500⟩, false, []⟩) (by simp) ⟨1000500⟩ (by decide)

/-! Decimal-digit machinery for the parse/format round trip (claims C3, C7,
C10). -/

theorem i64Min_eq : i64Min = -9223372036854775808 := by norm_num [i64Min]

theorem i64Max_eq : i64Max = 9223372036854775807 := by norm_num [i64Max]

theorem digitVal_natDigitChar {n : Nat} (h : n < 10) :
    digitVal (natDigitChar n) = n := by
  interval_cases n <;> rfl

theorem isDigitChar_natDigitChar {n : Nat} (h : n < 10) :
    isDigitChar (natDigitChar n) = true := by
  interval_cases n <;> rfl

theorem isDigitChar_toNat {c : Char} (h : isDigitChar c = true) :
    48 ≤ c.toNat ∧ c.toNat ≤ 57 := by
  unfold isDigitChar at h
  simp only [Bool.and_eq_true, decide_eq_true_eq] at h
  exact h

theorem digit_not_ws {c : Char} (h : isDigitChar c = true) : isWs c = false := by
  have hb := isDigitChar_toNat h
  unfold isWs
  simp only [Bool.or_eq_false_iff, Bool.and_eq_false_iff, beq_eq_false_iff_ne,
    ne_eq, decide_eq_false_iff_not]
  omega

theorem digit_ne_dot {c : Char} (h : isDigitChar c = true) : c ≠ '.' := by
  intro he
  rw [he] at h
  exact absurd h (by decide)

theorem digit_ne_minus {c : Char} (h : isDigitChar c = true) : c ≠ '-' := by
  intro he
  rw [he] at h
  exact absurd h (by decide)

theorem digit_ne_plus {c : Char} (h : isDigitChar c = true) : c ≠ '+' := by
  intro he
  rw [he] at h
  exact absurd h (by decide)

theorem digitsVal_fold (a : Nat) (cs : List Char) :
    cs.foldl (fun n c => n * 10 + digitVal c) a = a * 10 ^ cs.length + digitsVal cs := by
  induction cs generalizing a with
  | nil => simp [digitsVal]
  | cons c cs ih =>
    simp only [List.foldl_cons]
    rw [ih (a * 10 + digitVal c)]
    have hr : digitsVal (c :: cs) = (0 * 10 + digitVal c) * 10 ^ cs.length + digitsVal cs := by
      unfold digitsVal
      simp only [List.foldl_cons]
      exact ih (0 * 10 + digitVal c)
    rw [List.length_cons, hr]
    ring

theorem digitsVal_cons (c : Char) (cs : List Char) :
    digitsVal (c :: cs) = digitVal c * 10 ^ cs.length + digitsVal cs := by
  have hr : digitsVal (c :: cs) = (0 * 10 + digitVal c) * 10 ^ cs.length + digitsVal cs := by
    unfold digitsVal
    simp only [List.foldl_cons]
    exact digitsVal_fold (0 * 10 + digitVal c) cs
  rw [hr]
  ring

theorem digitsVal_append (xs ys : List Char) :
    digitsVal (xs ++ ys) = digitsVal xs * 10 ^ ys.length + digitsVal ys := by
  unfold digitsVal
  rw [List.foldl_append]
  exact digitsVal_fold _ ys

theorem digitsVal_replicate_zero (k : Nat) :
    digitsVal (List.replicate k '0') = 0 := by
  induction k with
  | zero => rfl
  | succ k ih =>
    rw [List.replicate_succ, digitsVal_cons, ih]
    have h0 : digitVal '0' = 0 := by decide
    rw [h0]
    simp

theorem natReprAux_spec (fuel : Nat) :
    ∀ n, n < fuel →
      (∀ c ∈ natReprAux fuel n, isDigitChar c = true) ∧
      natReprAux fuel n ≠ [] ∧
      digitsVal (natReprAux fuel n) = n := by
  induction fuel with
  | zero => intro n h; omega
  | succ fuel ih =>
    intro n hfuel
    by_cases h10 : n < 10
    · refine ⟨?_, ?_, ?_⟩
      · intro c hc
        simp only [natReprAux, if_pos h10, List.mem_singleton] at hc
        subst hc
        exact isDigitChar_natDigitChar h10
      · simp [natReprAux, if_pos h10]
      · simp only [natReprAux, if_pos h10]
        unfold digitsVal
        simp only [List.foldl_cons, List.foldl_nil]
        rw [Nat.zero_mul, Nat.zero_add]
        exact digitVal_natDigitChar h10
    · have hdiv : n / 10 < fuel := by omega
      obtain ⟨hdig, hne, hval⟩ := ih (n / 10) hdiv
      refine ⟨?_, ?_, ?_⟩
      · intro c hc
        simp only [natReprAux, if_neg h10, List.mem_append, List.mem_singleton] at hc
        rcases hc with hc | hc
        · exact hdig c hc
        · subst hc
          exact isDigitChar_natDigitChar (Nat.mod_lt n (by omega))
      · simp [natReprAux, if_neg h10]
      · simp only [natReprAux, if_neg h10]
        rw [digitsVal_append, hval]
        have h1 : digitsVal [natDigitChar (n % 10)] = n % 10 := by
          unfold digitsVal
          simp only [List.foldl_cons, List.foldl_nil]
          rw [Nat.zero_mul, Nat.zero_add]
          exact digitVal_natDigitChar (Nat.mod_lt n (by omega))
        rw [h1]
        simp only [List.length_singleton, pow_one]
        omega

theorem natRepr_digits (n : Nat) : ∀ c ∈ natRepr n, isDigitChar c = true :=
  (natReprAux_spec (n + 1) n (by omega)).1

theorem natRepr_ne_nil (n : Nat) : natRepr n ≠ [] :=
  (natReprAux_spec (n + 1) n (by omega)).2.1

theorem natRepr_val (n : Nat) : digitsVal (natRepr n) = n :=
  (natReprAux_spec (n + 1) n (by omega)).2.2

theorem natReprAux_length_le (fuel : Nat) :
    ∀ n k, n < fuel → n < 10 ^ k → 1 ≤ k → (natReprAux fuel n).length ≤ k := by
  induction fuel with
  | zero => intro n k h; omega
  | succ fuel ih =>
    intro n k hfuel hpow hk
    by_cases h10 : n < 10
    · simp only [natReprAux, if_pos h10, List.length_singleton]
      exact hk
    · have hk2 : 2 ≤ k := by
        rcases Nat.lt_or_ge k 2 with hklt | hkge
        · interval_cases k
          simp only [pow_one] at hpow
          omega
        · exact hkge
      have hdiv : n / 10 < fuel := by omega
      have hpow2 : n / 10 < 10 ^ (k - 1) := by
        have h1 : (10 : Nat) ^ k = 10 ^ (k - 1) * 10 := by
          conv_lhs => rw [show k = (k - 1) + 1 by omega]
          rw [pow_succ]
        rw [Nat.div_lt_iff_lt_mul (by norm_num)]
        omega
      have := ih (n / 10) (k - 1) hdiv hpow2 (by omega)
      simp only [natReprAux, if_neg h10, List.length_append, List.length_singleton]
      omega

theorem natRepr_length_le {n k : Nat} (hpow : n < 10 ^ k) (hk : 1 ≤ k) :
    (natRepr n).length ≤ k :=
  natReprAux_length_le (n + 1) n k (by omega) hpow hk

theorem pad4_spec {r : Nat} (h : r < 10000) :
    (pad4 r).length = 4 ∧ (∀ c ∈ pad4 r, isDigitChar c = true) ∧
    digitsVal (pad4 r) = r ∧ pad4 r ≠ [] := by
  have hlen : (natRepr r).length ≤ 4 := natRepr_length_le (by omega) (by omega)
  have hpos : 1 ≤ (natRepr r).length :=
    List.length_pos.mpr (natRepr_ne_nil r)
  refine ⟨?_, ?_, ?_, ?_⟩
  · unfold pad4
    simp only [List.length_append, List.length_replicate]
    omega
  · intro c hc
    unfold pad4 at hc
    rw [List.mem_append] at hc
    rcases hc with hc | hc
    · rw [List.eq_of_mem_replicate hc]
      rfl
    · exact natRepr_digits r c hc
  · unfold pad4
    rw [digitsVal_append, digitsVal_replicate_zero, natRepr_val]
    simp
  · unfold pad4
    intro hcontra
    rw [List.append_eq_nil] at hcontra
    exact natRepr_ne_nil r hcontra.2

/-! Split, trim and integer-parse lemmas. -/

theorem splitDot_ne_nil (cs : List Char) : splitDot cs ≠ [] := by
  cases cs with
  | nil => simp [splitDot]
  | cons c cs =>
    unfold splitDot
    rcases h : splitDot cs with _ | ⟨p, ps⟩
    · simp
    · by_cases hc : c = '.' <;> simp [hc]

theorem splitDot_no_dot {cs : List Char} (h : ∀ c ∈ cs, c ≠ '.') :
    splitDot cs = [cs] := by
  induction cs with
  | nil => rfl
  | cons c cs ih =>
    have hc : c ≠ '.' := h c (by simp)
    have hrest : splitDot cs = [cs] := ih fun x hx => h x (by simp [hx])
    unfold splitDot
    rw [hrest]
    simp [hc]

theorem splitDot_append_dot {xs : List Char} (ys : List Char)
    (h : ∀ c ∈ xs, c ≠ '.') :
    splitDot (xs ++ '.' :: ys) = xs :: splitDot ys := by
  induction xs with
  | nil =>
    simp only [List.nil_append]
    obtain ⟨p, ps, hps⟩ : ∃ p ps, splitDot ys = p :: ps := by
      rcases hsd : splitDot ys with _ | ⟨p, ps⟩
      · exact absurd hsd (splitDot_ne_nil ys)
      · exact ⟨p, ps, rfl⟩
    conv_lhs => rw [splitDot]
    rw [hps]
    simp
  | cons c cs ih =>
    have hc : c ≠ '.' := h c (by simp)
    have hrest := ih fun x hx => h x (by simp [hx])
    simp only [List.cons_append]
    conv_lhs => rw [splitDot]
    rw [hrest]
    simp [hc]

theorem dropWhile_eq_self_of {p : Char → Bool} {cs : List Char}
    (h : ∀ c ∈ cs, p c = false) : cs.dropWhile p = cs := by
  cases cs with
  | nil => rfl
  | cons c cs => simp [List.dropWhile_cons, h c (by simp)]

theorem trimChars_eq_self {cs : List Char} (h : ∀ c ∈ cs, isWs c = false) :
    trimChars cs = cs := by
  unfold trimChars
  rw [dropWhile_eq_self_of h]
  rw [dropWhile_eq_self_of (by intro c hc; exact h c (List.mem_reverse.mp hc))]
  exact List.reverse_reverse cs

theorem parseNatDigits?_of_digits {cs : List Char} (hne : cs ≠ [])
    (hdig : ∀ c ∈ cs, isDigitChar c = true) :
    parseNatDigits? cs = some (digitsVal cs) := by
  unfold parseNatDigits?
  rw [if_neg (by simpa [List.isEmpty_iff] using hne)]
  rw [if_pos (by rw [List.all_eq_true]; exact hdig)]

theorem parseI64?_of_digits {cs : List Char} {c0 : Char} {cs0 : List Char}
    (hcs : cs = c0 :: cs0) (hdig : ∀ c ∈ cs, isDigitChar c = true)
    (hfit : fitsI64 ((digitsVal cs : Nat) : Int)) :
    parseI64? cs = some ((digitsVal cs : Nat) : Int) := by
  subst hcs
  have h0 : isDigitChar c0 = true := hdig c0 (by simp)
  simp only [parseI64?]
  rw [if_neg (digit_ne_minus h0), if_neg (digit_ne_plus h0),
    parseNatDigits?_of_digits (by simp) hdig]
  simp [Option.bind, hfit]

theorem parseI64?_neg_of_digits {cs : List Char}
    (hne : cs ≠ []) (hdig : ∀ c ∈ cs, isDigitChar c = true)
    (hfit : fitsI64 (-((digitsVal cs : Nat) : Int))) :
    parseI64? ('-' :: cs) = some (-((digitsVal cs : Nat) : Int)) := by
  simp only [parseI64?]
  rw [if_pos trivial, parseNatDigits?_of_digits hne hdig]
  simp [Option.bind, hfit]

theorem padTo4_eq_self {cs : List Char} (h : cs.length = 4) : padTo4 cs = cs := by
  unfold padTo4
  rw [if_neg (by omega), h]
  simp

/-- Parsing a string of the canonical shape `xs ++ "." ++ pad4 r` (with `xs`
free of dots and whitespace) follows the decimal branch of `from_str` and
returns whatever `i64` parse of `xs ++ pad4 r` yields. -/
theorem fromChars_core (xs : List Char) (r : Nat) (hr : r < 10000)
    (hxs_ne : xs ≠ [])
    (hxs_nodot : ∀ c ∈ xs, c ≠ '.')
    (hxs_nows : ∀ c ∈ xs, isWs c = false)
    (v : Int) (hparse : parseI64? (xs ++ pad4 r) = some v) :
    Amount.fromChars (xs ++ '.' :: pad4 r) = .ok ⟨v⟩ := by
  obtain ⟨hplen, hpdig, hpval, hpne⟩ := pad4_spec hr
  have hpnodot : ∀ c ∈ pad4 r, c ≠ '.' := fun c hc => digit_ne_dot (hpdig c hc)
  have hnows : ∀ c ∈ xs ++ '.' :: pad4 r, isWs c = false := by
    intro c hc
    rw [List.mem_append] at hc
    rcases hc with hc | hc
    · exact hxs_nows c hc
    · rw [List.mem_cons] at hc
      rcases hc with hc | hc
      · subst hc; decide
      · exact digit_not_ws (hpdig c hc)
  have htrim : trimChars (xs ++ '.' :: pad4 r) = xs ++ '.' :: pad4 r :=
    trimChars_eq_self hnows
  have hsplit : splitDot (xs ++ '.' :: pad4 r) = xs :: [pad4 r] := by
    rw [splitDot_append_dot (pad4 r) hxs_nodot, splitDot_no_dot hpnodot]
  have hne : (xs ++ '.' :: pad4 r).isEmpty = false := by
    rcases xs with _ | ⟨c, cs⟩
    · simp
    · simp
  simp only [Amount.fromChars]
  rw [htrim, hne, hsplit]
  simp only [Bool.false_eq_true, if_false, List.length_cons, List.length_nil,
    List.head?_cons]
  rw [if_neg (by omega)]
  have hxs_empty : xs.isEmpty = false := by
    rcases xs with _ | ⟨c, cs⟩
    · exact absurd rfl hxs_ne
    · rfl
  have hpempty : (pad4 r).isEmpty = false := by
    rcases hp : pad4 r with _ | ⟨c, cs⟩
    · exact absurd hp hpne
    · rfl
  rw [hxs_empty, hpempty]
  simp only [Bool.false_eq_true, if_false]
  rw [if_pos (by rw [List.all_eq_true]; exact hpdig)]
  rw [padTo4_eq_self hplen, hparse]

/-- C3 (amended): for every representable backing value other than
`i64::MIN` (where `Display`'s absolute-value computation overflows),
formatting yields a string and parsing that string returns exactly the
original amount. -/
theorem format_parse_roundtrip (a : Amount)
    (hlo : i64Min < a.store) (hhi : a.store ≤ i64Max) :
    ∃ s, a.format = some s ∧ Amount.fromChars s = .ok a := by
  have hmin := i64Min_eq
  have hmax := i64Max_eq
  have hne : a.store ≠ i64Min := by omega
  have hAle : a.store.natAbs ≤ 9223372036854775807 := by omega
  have hr : a.store.natAbs % 10000 < 10000 := Nat.mod_lt _ (by omega)
  obtain ⟨hplen, hpdig, hpval, hpne⟩ := pad4_spec hr
  have hdigval : digitsVal (natRepr (a.store.natAbs / 10000) ++ pad4 (a.store.natAbs % 10000)) =
      a.store.natAbs := by
    rw [digitsVal_append, natRepr_val, hplen, hpval]
    norm_num
    omega
  have hdig_all : ∀ c ∈ natRepr (a.store.natAbs / 10000) ++ pad4 (a.store.natAbs % 10000),
      isDigitChar c = true := by
    intro c hc
    rw [List.mem_append] at hc
    rcases hc with hc | hc
    · exact natRepr_digits _ c hc
    · exact hpdig c hc
  by_cases hsign : a.store < 0
  · have hfmt : a.format =
        some ('-' :: (natRepr (a.store.natAbs / 10000) ++
          '.' :: pad4 (a.store.natAbs % 10000))) := by
      simp only [Amount.format]
      rw [if_neg hne, if_pos hsign]
    refine ⟨_, hfmt, ?_⟩
    have hassoc : '-' :: (natRepr (a.store.natAbs / 10000) ++
        '.' :: pad4 (a.store.natAbs % 10000)) =
        ('-' :: natRepr (a.store.natAbs / 10000)) ++
        '.' :: pad4 (a.store.natAbs % 10000) := by simp
    rw [hassoc]
    have hparse : parseI64? (('-' :: natRepr (a.store.natAbs / 10000)) ++
        pad4 (a.store.natAbs % 10000)) = some a.store := by
      rw [List.cons_append]
      rw [parseI64?_neg_of_digits
        (by rcases h0 : natRepr (a.store.natAbs / 10000) with _ | ⟨c, cs⟩
            · exact absurd h0 (natRepr_ne_nil _)
            · simp)
        hdig_all
        (by rw [hdigval]; unfold fitsI64; omega)]
      rw [hdigval]
      congr 1
      omega
    refine fromChars_core _ _ hr (by simp) ?_ ?_ a.store hparse
    · intro c hc
      rw [List.mem_cons] at hc
      rcases hc with hc | hc
      · subst hc; decide
      · exact digit_ne_dot (natRepr_digits _ c hc)
    · intro c hc
      rw [List.mem_cons] at hc
      rcases hc with hc | hc
      · subst hc; decide
      · exact digit_not_ws (natRepr_digits _ c hc)
  · have hfmt : a.format =
        some (natRepr (a.store.natAbs / 10000) ++
          '.' :: pad4 (a.store.natAbs % 10000)) := by
      simp only [Amount.format]
      rw [if_neg hne, if_neg hsign]
    refine ⟨_, hfmt, ?_⟩
    obtain ⟨c0, cs0, hrep⟩ : ∃ c0 cs0,
        natRepr (a.store.natAbs / 10000) = c0 :: cs0 := by
      rcases h0 : natRepr (a.store.natAbs / 10000) with _ | ⟨c, cs⟩
      · exact absurd h0 (natRepr_ne_nil _)
      · exact ⟨c, cs, rfl⟩
    have hparse : parseI64? (natRepr (a.store.natAbs / 10000) ++
        pad4 (a.store.natAbs % 10000)) = some a.store := by
      rw [parseI64?_of_digits (by rw [hrep]; rfl) hdig_all
        (by rw [hdigval]; unfold fitsI64; omega)]
      rw [hdigval]
      congr 1
      omega
    refine fromChars_core _ _ hr (natRepr_ne_nil _) ?_ ?_ a.store hparse
    · exact fun c hc => digit_ne_dot (natRepr_digits _ c hc)
    · exact fun c hc => digit_not_ws (natRepr_digits _ c hc)

/-- Witness for amended C3 at a concrete amount. -/
theorem format_parse_roundtrip_witness :
    ∃ s, Amount.format ⟨-123451234⟩ = some s ∧
      Amount.fromChars s = .ok ⟨-123451234⟩ :=
  format_parse_roundtrip ⟨-123451234⟩ (by decide) (by decide)

/-- Counterexample to C3 as stated: the backing value `-2^63` is
representable (it is even produced by parsing `"-922337203685477.5808"`), yet
formatting it produces no string at all — the absolute-value computation in
`Display` overflows (a panic under debug assertions) — so no round trip
exists for it. -/
theorem roundtrip_fails_at_i64_min_cex :
    fitsI64 (Amount.mk i64Min).store ∧
    Amount.fromStr "-922337203685477.5808" = .ok ⟨i64Min⟩ ∧
    Amount.format ⟨i64Min⟩ = none := by
  refine ⟨by decide, by decide, by decide⟩

/-- C7: on an input with no fractional part (no `'.'` in the trimmed text),
`from_str` reports `Parse` exactly when the integer part fails the `i64`
parse, reports `Overflow` exactly when it parses but the `×10000` scaling
leaves the `i64` range, and succeeds otherwise — so the two failure kinds
are distinguishable to the caller. -/
theorem parse_no_dot_error_distinction (cs : List Char)
    (h : ∀ c ∈ trimChars cs, c ≠ '.') :
    (parseI64? (trimChars cs) = none →
      Amount.fromChars cs = .error (.Parse (trimChars cs))) ∧
    (∀ v, parseI64? (trimChars cs) = some v → ¬ fitsI64 (v * 10000) →
      Amount.fromChars cs = .error .Overflow) ∧
    (∀ v, parseI64? (trimChars cs) = some v → fitsI64 (v * 10000) →
      Amount.fromChars cs = .ok ⟨v * 10000⟩) := by
  have hmain : Amount.fromChars cs =
      (match parseI64? (trimChars cs) with
       | some v =>
         if fitsI64 (v * 10000) then .ok ⟨v * 10000⟩ else .error .Overflow
       | none => .error (.Parse (trimChars cs))) := by
    rcases hcs : trimChars cs with _ | ⟨c0, cs0⟩
    · simp only [Amount.fromChars]
      rw [hcs]
      simp [parseI64?]
    · have hsplit : splitDot (trimChars cs) = [trimChars cs] := splitDot_no_dot h
      rw [hcs] at hsplit
      simp only [Amount.fromChars]
      rw [hcs, hsplit]
      simp only [List.isEmpty_cons, Bool.false_eq_true, if_false,
        List.length_nil, List.head?_nil]
      rw [if_neg (by omega)]
  refine ⟨?_, ?_, ?_⟩
  · intro hnone
    rw [hmain, hnone]
  · intro v hv hnofit
    rw [hmain, hv]
    exact if_neg hnofit
  · intro v hv hfit
    rw [hmain, hv]
    exact if_pos hfit

/-- Witness for C7: the two boundary strings from the repository's own unit
tests — `i64::MAX` as text parses but overflows the scaling (`Overflow`),
one more fails the integer parse itself (`Parse`). -/
theorem parse_no_dot_error_distinction_witness :
    Amount.fromChars "9223372036854775807".data = .error .Overflow ∧
    Amount.fromChars "9223372036854775808".data =
      .error (.Parse "9223372036854775808".data) := by
  constructor
  · exact (parse_no_dot_error_distinction "9223372036854775807".data
      (by decide)).2.1 9223372036854775807 (by decide) (by decide)
  · exact (parse_no_dot_error_distinction "9223372036854775808".data
      (by decide)).1 (by decide)

/-- C10 (amended): formatting terminates and returns a string for every
representable amount except the one with backing integer `-2^63`, where the
absolute-value computation inside `Display` overflows. -/
theorem format_total_except_min (a : Amount)
    (_h1 : fitsI64 a.store) (h2 : a.store ≠ i64Min) :
    (Amount.format a).isSome = true := by
  unfold Amount.format
  rw [if_neg h2]
  by_cases hs : a.store < 0 <;> simp [hs]

/-- Witness for amended C10 at a concrete amount. -/
theorem format_total_except_min_witness :
    (Amount.format ⟨-500⟩).isSome = true :=
  format_total_except_min ⟨-500⟩ (by decide) (by decide)

/-- Counterexample to C10 as stated: the amount with backing integer `-2^63`
is producible by parsing (`"-922337203685477.5808"`), yet `Display`'s
absolute-value computation overflows on it and no string is returned. -/
theorem format_overflows_at_i64_min_cex :
    Amount.fromChars "-922337203685477.5808".data = .ok ⟨-(2 ^ 63)⟩ ∧
    Amount.format ⟨-(2 ^ 63)⟩ = none := by
  refine ⟨by decide, by decide⟩

end CrabCash
